import Mathlib

/-!
Shallow embedding of `CustomVec<T>` from
`src/03_ownership_borrowing/solutions/ex3_custom_vector/main.rs`.

The Rust struct holds a raw pointer `ptr`, a `len : usize` and a
`capacity : usize`.  The live elements are the initialized slots
`[0, len)` of the backing allocation; we model them as a `List T`
(`data`), so `len` is `data.length`, and keep `capacity` explicit.
The raw-pointer aspects (null/dangling storage, allocator outcomes)
are modelled separately below for the failure-path analysis.
-/

set_option autoImplicit false

structure CustomVec (T : Type) where
  data : List T
  capacity : Nat
  deriving Repr, DecidableEq

namespace CustomVec

variable {T : Type}

/-- `CustomVec::new`: `len = 0`, `capacity = 0`, no allocation. -/
def new (T : Type) : CustomVec T := ⟨[], 0⟩

/-- `CustomVec::with_capacity(capacity)`: one allocation of `capacity`
slots, `len = 0`. -/
def withCapacity (T : Type) (capacity : Nat) : CustomVec T := ⟨[], capacity⟩

/-- `CustomVec::len`. -/
def len (v : CustomVec T) : Nat := v.data.length

/-- `CustomVec::grow`: `new_capacity = if capacity == 0 { 1 } else { capacity * 2 }`;
the `realloc` preserves the old block's contents (prefix) per the allocator
contract, so the live slots are unchanged. -/
def grow (v : CustomVec T) : CustomVec T :=
  { v with capacity := if v.capacity = 0 then 1 else v.capacity * 2 }

/-- `CustomVec::push`: grow iff `len == capacity`, then write `value`
into slot `len` and increment `len`. -/
def push (v : CustomVec T) (value : T) : CustomVec T :=
  let w := if v.len = v.capacity then v.grow else v
  { w with data := w.data ++ [value] }

/-- `CustomVec::pop`: on `len == 0` return `None` and leave the state
alone; otherwise decrement `len` and read the value out of the abandoned
slot (index `len - 1`). -/
def pop (v : CustomVec T) : Option T × CustomVec T :=
  if v.len = 0 then (none, v)
  else (v.data[v.len - 1]?, { v with data := v.data.dropLast })

/-- `CustomVec::get`: `None` when `index >= len`, else the element in
slot `index`. -/
def get (v : CustomVec T) (index : Nat) : Option T :=
  if index ≥ v.len then none else v.data[index]?

/-- `CustomVec::get_mut`, read side: same bounds check and slot as `get`
(the source bodies differ only in the mutability of the reference). -/
def getMut (v : CustomVec T) (index : Nat) : Option T :=
  if index ≥ v.len then none else v.data[index]?

/-- Writing through the reference returned by `get_mut`: in-place update
of slot `index`; no effect when the index was out of range (`get_mut`
returned `None`). -/
def setThroughGetMut (v : CustomVec T) (index : Nat) (value : T) : CustomVec T :=
  if index ≥ v.len then v else { v with data := v.data.set index value }

/-- Push a whole list, left to right. -/
def pushAll (v : CustomVec T) : List T → CustomVec T
  | [] => v
  | x :: xs => pushAll (v.push x) xs

/-- Pop `n` times, collecting the returned values in order; stops early
if a pop returns `None`. -/
def popN (v : CustomVec T) : Nat → List T × CustomVec T
  | 0 => ([], v)
  | n + 1 =>
    match v.pop with
    | (some x, v1) =>
      let r := v1.popN n
      (x :: r.1, r.2)
    | (none, v1) => ([], v1)

/-- `impl Drop for CustomVec`: when `capacity != 0`, pop in a loop until
`None` (`while self.pop().is_some() ...` — each returned value is dropped
as it leaves scope), then `dealloc` the backing block once; when
`capacity == 0` do nothing.  Returns the sequence of element values
dropped, in order, and whether the allocation was released. -/
def dropVec (v : CustomVec T) : List T × Bool :=
  if v.capacity ≠ 0 then ((v.popN (v.len + 1)).1, true) else ([], false)

/-- Elements whose bytes growth relocates during one `push`: `push` calls
`grow` exactly when `len == capacity`, and the `realloc` there copies the
whole old block of `capacity` slots (at that moment `len == capacity`).
A push that does not grow copies nothing. -/
def pushCopyCost (v : CustomVec T) : Nat :=
  if v.len = v.capacity then v.capacity else 0

/-- Total growth-relocation work over a sequence of pushes. -/
def pushAllCopyCost (v : CustomVec T) : List T → Nat
  | [] => 0
  | x :: xs => v.pushCopyCost + (v.push x).pushAllCopyCost xs

/-- A public mutating call: `push(value)` or `pop()` (the accessors
`get`/`get_mut`/`len`/`capacity` do not change the `(len, capacity)`
bookkeeping). -/
inductive Op (T : Type) where
  | push (value : T)
  | pop
  deriving Repr, DecidableEq

/-- Run one public call against the buffer state. -/
def applyOp (v : CustomVec T) : Op T → CustomVec T
  | .push x => v.push x
  | .pop => (v.pop).2

/-- Run a sequence of public calls, left to right. -/
def applyOps (v : CustomVec T) : List (Op T) → CustomVec T
  | [] => v
  | o :: os => (v.applyOp o).applyOps os

/-- Shape of the state reachable by pushes from `new`: either still the
untouched empty state, or the capacity is a power of two with
`len <= capacity < 2 * len`. -/
def Balanced (v : CustomVec T) : Prop :=
  (v.data = [] ∧ v.capacity = 0) ∨
    ((∃ j, v.capacity = 2 ^ j) ∧ v.len ≤ v.capacity ∧ v.capacity < 2 * v.len)

end CustomVec

/-!
Raw-pointer view of `grow`, for the allocation-failure analysis of the
source.  `alloc::alloc` / `alloc::realloc` return a null pointer on
failure; `Layout::array::<T>(n).unwrap()` panics (a loud, non-continuable
fault) when `n * size_of::<T>()` overflows the layout limit.  The source's
`grow` wraps whatever pointer the allocator returned in
`NonNull::new_unchecked` — with no null check — and then updates
`capacity`.
-/

/-- The pointer/bookkeeping fragment of the vector state: whether the
stored pointer is null, and the `capacity` field. -/
structure RawVec where
  ptrIsNull : Bool
  capacity : Nat
  deriving Repr, DecidableEq

/-- How one call to `grow` terminates: `panicked` models the
`Layout::array(..).unwrap()` panic (loud, non-continuable); `continued s`
means the function ran to completion leaving state `s`. -/
inductive GrowOutcome where
  | panicked
  | continued (s : RawVec)
  deriving Repr, DecidableEq

/-- `Layout::array::<T>(n)`: the byte size `size_of::<T>() * n`, or `none`
(on which `.unwrap()` panics) when it exceeds the layout bound. -/
def layoutArray (elemSize n isizeMax : Nat) : Option Nat :=
  if elemSize * n ≤ isizeMax then some (elemSize * n) else none

/-- `CustomVec::grow` with the allocator's reply made explicit:
`allocOk = false` means the `alloc`/`realloc` call returned null.  The
source performs no null check: it wraps the returned pointer in
`NonNull::new_unchecked` and updates `capacity` unconditionally, so on
allocator failure the function still returns normally, with a null
stored pointer and a grown `capacity`. -/
def growRaw (elemSize isizeMax : Nat) (allocOk : Bool) (s : RawVec) : GrowOutcome :=
  let newCapacity := if s.capacity = 0 then 1 else s.capacity * 2
  match layoutArray elemSize newCapacity isizeMax with
  | none => GrowOutcome.panicked
  | some _ => GrowOutcome.continued ⟨!allocOk, newCapacity⟩

/-- `CustomVec::with_capacity` with the allocator's reply explicit: the
`unwrap` on `Layout::array` panics loudly on size overflow; otherwise the
`alloc` result is wrapped in `NonNull::new_unchecked` — again with no
null check — and the fields are set (`len = 0`, `capacity` as asked). -/
def withCapacityRaw (elemSize isizeMax : Nat) (allocOk : Bool) (capacity : Nat) : GrowOutcome :=
  match layoutArray elemSize capacity isizeMax with
  | none => GrowOutcome.panicked
  | some _ => GrowOutcome.continued ⟨!allocOk, capacity⟩

/-!
Basic facts about the embedded operations.
-/

namespace CustomVec

variable {T : Type}

@[simp] theorem data_grow (v : CustomVec T) : v.grow.data = v.data := rfl

@[simp] theorem len_grow (v : CustomVec T) : v.grow.len = v.len := rfl

@[simp] theorem capacity_grow (v : CustomVec T) :
    v.grow.capacity = if v.capacity = 0 then 1 else v.capacity * 2 := rfl

@[simp] theorem data_new : (new T).data = [] := rfl

@[simp] theorem len_new : (new T).len = 0 := rfl

@[simp] theorem capacity_new : (new T).capacity = 0 := rfl

@[simp] theorem len_withCapacity (n : Nat) : (withCapacity T n).len = 0 := rfl

@[simp] theorem capacity_withCapacity (n : Nat) : (withCapacity T n).capacity = n := rfl

@[simp] theorem len_mk (d : List T) (c : Nat) : (CustomVec.mk d c).len = d.length := rfl

@[simp] theorem data_push (v : CustomVec T) (x : T) : (v.push x).data = v.data ++ [x] := by
  unfold push
  split <;> rfl

@[simp] theorem len_push (v : CustomVec T) (x : T) : (v.push x).len = v.len + 1 := by
  show (v.push x).data.length = v.data.length + 1
  rw [data_push, List.length_append, List.length_singleton]

theorem capacity_push (v : CustomVec T) (x : T) :
    (v.push x).capacity =
      if v.len = v.capacity then (if v.capacity = 0 then 1 else v.capacity * 2)
      else v.capacity := by
  unfold push
  split <;> rfl

theorem pop_of_len_zero (v : CustomVec T) (h : v.len = 0) : v.pop = (none, v) := by
  unfold pop
  rw [if_pos h]

theorem pop_concat (v : CustomVec T) (l : List T) (x : T) (h : v.data = l ++ [x]) :
    v.pop = (some x, { v with data := l }) := by
  have hlen : v.len = l.length + 1 := by
    show v.data.length = l.length + 1
    rw [h, List.length_append, List.length_singleton]
  unfold pop
  rw [if_neg (by omega), hlen, h, Nat.add_sub_cancel, List.getElem?_concat_length,
    List.dropLast_concat]

theorem popN_of_le (v : CustomVec T) : ∀ n : Nat, v.len ≤ n →
    v.popN n = (v.data.reverse, CustomVec.mk [] v.capacity) := by
  rcases v with ⟨d, c⟩
  induction d using List.reverseRecOn with
  | nil =>
    intro n _
    cases n with
    | zero => rfl
    | succ m =>
      show popN _ (m + 1) = _
      unfold popN
      rw [pop_of_len_zero (CustomVec.mk [] c) rfl]
      rfl
  | append_singleton l x ih =>
    intro n hn
    have hlen : (CustomVec.mk (l ++ [x]) c).len = l.length + 1 := by
      rw [len_mk, List.length_append, List.length_singleton]
    cases n with
    | zero => rw [hlen] at hn; omega
    | succ m =>
      have hpop : (CustomVec.mk (l ++ [x]) c).pop = (some x, CustomVec.mk l c) :=
        pop_concat _ l x rfl
      have hm : (CustomVec.mk l c).len ≤ m := by
        rw [hlen] at hn; rw [len_mk]; omega
      show popN _ (m + 1) = _
      unfold popN
      rw [hpop]
      show (x :: ((CustomVec.mk l c).popN m).1, ((CustomVec.mk l c).popN m).2) = _
      rw [ih m hm]
      simp

theorem pushAll_data : ∀ (xs : List T) (v : CustomVec T),
    (v.pushAll xs).data = v.data ++ xs := by
  intro xs
  induction xs with
  | nil => intro v; simp [pushAll]
  | cons x xs ih =>
    intro v
    show ((v.push x).pushAll xs).data = v.data ++ x :: xs
    rw [ih (v.push x), data_push, List.append_assoc, List.singleton_append]

theorem pushAll_len (xs : List T) (v : CustomVec T) :
    (v.pushAll xs).len = v.len + xs.length := by
  show (v.pushAll xs).data.length = v.data.length + xs.length
  rw [pushAll_data, List.length_append]

end CustomVec

/-!
Invariant layer: capacity shape under repeated pushes, the
`len <= capacity` invariant, and the growth-relocation cost bound.
-/

namespace CustomVec

variable {T : Type}

theorem balanced_new : Balanced (new T) := Or.inl ⟨rfl, rfl⟩

theorem balanced_push (v : CustomVec T) (x : T) (h : Balanced v) : Balanced (v.push x) := by
  have hlen := len_push v x
  have hcap := capacity_push v x
  rcases h with ⟨hd, hc⟩ | ⟨⟨j, hj⟩, hlc, hcl⟩
  · have hl0 : v.len = 0 := by rw [len, hd]; rfl
    right
    rw [hl0, hc] at hcap
    rw [if_pos rfl, if_pos rfl] at hcap
    exact ⟨⟨0, by rw [hcap, pow_zero]⟩, by omega, by omega⟩
  · have hl1 : 1 ≤ v.len := by omega
    have hc1 : 1 ≤ v.capacity := by omega
    by_cases hif : v.len = v.capacity
    · rw [if_pos hif, if_neg (by omega)] at hcap
      right
      refine ⟨⟨j + 1, by rw [hcap, hj, pow_succ]⟩, by omega, by omega⟩
    · rw [if_neg hif] at hcap
      right
      exact ⟨⟨j, by rw [hcap, hj]⟩, by omega, by omega⟩

theorem balanced_pushAll : ∀ (xs : List T) (v : CustomVec T),
    Balanced v → Balanced (v.pushAll xs) := by
  intro xs
  induction xs with
  | nil => intro v h; exact h
  | cons x xs ih => intro v h; exact ih (v.push x) (balanced_push v x h)

theorem len_le_capacity_push (v : CustomVec T) (x : T) (h : v.len ≤ v.capacity) :
    (v.push x).len ≤ (v.push x).capacity := by
  rw [len_push, capacity_push]
  by_cases hif : v.len = v.capacity
  · rw [if_pos hif]
    by_cases h0 : v.capacity = 0
    · rw [if_pos h0]; omega
    · rw [if_neg h0]; omega
  · rw [if_neg hif]; omega

@[simp] theorem capacity_pop (v : CustomVec T) : (v.pop).2.capacity = v.capacity := by
  unfold pop
  split <;> rfl

theorem len_pop_le (v : CustomVec T) : (v.pop).2.len ≤ v.len := by
  unfold pop
  split
  · exact le_refl _
  · show v.data.dropLast.length ≤ v.data.length
    rw [List.length_dropLast]
    omega

theorem len_le_capacity_applyOps : ∀ (ops : List (Op T)) (v : CustomVec T),
    v.len ≤ v.capacity → (v.applyOps ops).len ≤ (v.applyOps ops).capacity := by
  intro ops
  induction ops with
  | nil => intro v h; exact h
  | cons o os ih =>
    intro v h
    refine ih (v.applyOp o) ?_
    cases o with
    | push x => exact len_le_capacity_push v x h
    | pop =>
      show (v.pop).2.len ≤ (v.pop).2.capacity
      rw [capacity_pop]
      exact le_trans (len_pop_le v) h

theorem pushAllCopyCost_bound : ∀ (xs : List T) (v : CustomVec T),
    v.pushAllCopyCost xs + 2 * (v.pushAll xs).len + v.capacity ≤
      (v.pushAll xs).capacity + 2 * v.len + 2 * xs.length := by
  intro xs
  induction xs with
  | nil => intro v; show 0 + 2 * v.len + v.capacity ≤ v.capacity + 2 * v.len + 2 * 0; omega
  | cons x xs ih =>
    intro v
    have hih := ih (v.push x)
    have hlen := len_push v x
    have hcap := capacity_push v x
    show v.pushCopyCost + (v.push x).pushAllCopyCost xs + 2 * ((v.push x).pushAll xs).len
        + v.capacity ≤ ((v.push x).pushAll xs).capacity + 2 * v.len + 2 * (x :: xs).length
    rw [List.length_cons]
    unfold pushCopyCost
    rw [hlen] at hih
    by_cases hif : v.len = v.capacity
    · rw [if_pos hif]
      rw [if_pos hif] at hcap
      by_cases h0 : v.capacity = 0
      · rw [if_pos h0] at hcap
        rw [hcap] at hih
        omega
      · rw [if_neg h0] at hcap
        rw [hcap] at hih
        omega
    · rw [if_neg hif]
      rw [if_neg hif] at hcap
      rw [hcap] at hih
      omega

end CustomVec

/-!
Claim theorems.
-/

open CustomVec

/-- C1: starting from a buffer created by `new()` (length 0, capacity 0),
after exactly `k` pushes (`k >= 1`) with no intervening pops, `capacity()`
equals the smallest power of two `>= k`; the first growth produces
capacity 1 (`(new T).grow` has capacity 1) and each subsequent growth
doubles the current capacity (`grow` on nonzero capacity doubles it). -/
theorem growth_doubling {T : Type} (xs : List T) (hk : 1 ≤ xs.length) :
    IsLeast {c : Nat | (∃ j, c = 2 ^ j) ∧ xs.length ≤ c} ((new T).pushAll xs).capacity ∧
      (new T).grow.capacity = 1 ∧
      (∀ w : CustomVec T, w.capacity ≠ 0 → w.grow.capacity = 2 * w.capacity) := by
  have hb := balanced_pushAll xs (new T) balanced_new
  have hlen : ((new T).pushAll xs).len = xs.length := by
    rw [pushAll_len, len_new, Nat.zero_add]
  rcases hb with ⟨hd, _⟩ | ⟨⟨j, hj⟩, hlc, hcl⟩
  · exfalso
    have h0 : ((new T).pushAll xs).len = 0 := by rw [len, hd]; rfl
    omega
  · refine ⟨⟨⟨⟨j, hj⟩, by omega⟩, ?_⟩, rfl, ?_⟩
    · rintro c ⟨⟨m, hm⟩, hkc⟩
      rcases le_or_lt j m with hjm | hmj
      · rw [hm, hj]
        exact Nat.pow_le_pow_right (by norm_num) hjm
      · exfalso
        have h2 : (2 : Nat) ^ m ≤ 2 ^ (j - 1) :=
          Nat.pow_le_pow_right (by norm_num) (by omega)
        have h3 : (2 : Nat) ^ (j - 1) * 2 = 2 ^ j := by
          rw [← pow_succ, Nat.sub_add_cancel (by omega)]
        rw [hm] at hkc
        rw [hj] at hcl
        omega
    · intro w hw
      rw [capacity_grow, if_neg hw]
      ring

/-- Witness for C1: three pushes onto an empty buffer give capacity 4,
the least power of two at least 3. -/
theorem growth_doubling_witness :
    ((new Nat).pushAll [5, 6, 7]).capacity = 4 ∧
      IsLeast {c : Nat | (∃ j, c = 2 ^ j) ∧ 3 ≤ c} ((new Nat).pushAll [5, 6, 7]).capacity :=
  ⟨rfl, (growth_doubling [5, 6, 7] (by decide)).1⟩

/-- C3: pushing the values of `xs` (pairwise distinct) onto an empty
buffer and then popping `xs.length` times returns exactly the reverse of
the pushed sequence. -/
theorem lifo_pop_reverse {T : Type} (xs : List T) ( _hdistinct : xs.Nodup) :
    (((new T).pushAll xs).popN xs.length).1 = xs.reverse := by
  have hdata : ((new T).pushAll xs).data = xs := by
    rw [pushAll_data, data_new, List.nil_append]
  have hlen : ((new T).pushAll xs).len = xs.length := by rw [len, hdata]
  rw [popN_of_le _ xs.length (by omega), hdata]

/-- Witness for C3: pushing `[1, 2, 3]` and popping three times yields
`[3, 2, 1]`. -/
theorem lifo_pop_reverse_witness :
    (((new Nat).pushAll [1, 2, 3]).popN 3).1 = [3, 2, 1] := by
  have h := lifo_pop_reverse [1, 2, 3] (by decide)
  simpa using h

/-- C4: for every sequence of `push`/`pop` calls starting from `new()` or
from `with_capacity(n)`, `len <= capacity` holds after every call. -/
theorem len_le_capacity_invariant {T : Type} (ops : List (Op T)) (v0 : CustomVec T)
    (hinit : v0 = new T ∨ ∃ n, v0 = withCapacity T n) :
    (v0.applyOps ops).len ≤ (v0.applyOps ops).capacity := by
  apply len_le_capacity_applyOps
  rcases hinit with rfl | ⟨n, rfl⟩
  · rw [len_new, capacity_new]
  · rw [len_withCapacity, capacity_withCapacity]
    omega

/-- Witness for C4: a concrete push/push/pop/push run from `new`. -/
theorem len_le_capacity_invariant_witness :
    ((new Nat).applyOps [Op.push 1, Op.push 2, Op.pop, Op.push 3]).len ≤
      ((new Nat).applyOps [Op.push 1, Op.push 2, Op.pop, Op.push 3]).capacity :=
  len_le_capacity_invariant [Op.push 1, Op.push 2, Op.pop, Op.push 3] (new Nat) (Or.inl rfl)

/-- C5: when a push triggers growth (`len == capacity`), the internal
`grow` changes only the storage block and `capacity`: `len` and the slot
contents are unchanged, every `get` answer is unchanged, and after the
growing push every previously pushed element is still retrievable via
`get` at its original index with its value unchanged. -/
theorem grow_preserves_elements {T : Type} (v : CustomVec T) (x : T)
    (htrigger : v.len = v.capacity) :
    v.grow.len = v.len ∧ v.grow.data = v.data ∧ (∀ i, v.grow.get i = v.get i) ∧
      ∀ i, i < v.len → (v.push x).get i = v.get i := by
  refine ⟨rfl, rfl, fun i => rfl, fun i hi => ?_⟩
  have hd := data_push v x
  have hl := len_push v x
  unfold CustomVec.get
  rw [hd, hl, if_neg (by omega), if_neg (by omega)]
  exact List.getElem?_append_left (by rw [← len]; omega)

/-- Witness for C5: on a full buffer of two elements, the growing push
leaves the element at index 1 retrievable unchanged. -/
theorem grow_preserves_elements_witness :
    (CustomVec.mk [10, 20] 2).len = (CustomVec.mk [10, 20] 2).capacity ∧
      ((CustomVec.mk [10, 20] 2).push 30).get 1 = (CustomVec.mk [10, 20] 2).get 1 :=
  ⟨rfl, (grow_preserves_elements (CustomVec.mk [10, 20] 2) 30 rfl).2.2.2 1 (by decide)⟩

/-- C6: `pop` on an empty buffer returns `None` and leaves the whole
state (capacity included) unchanged; `get`/`get_mut` with an index at or
past `len` return `None`; with an index below `len` both return the
element stored in that slot.  All of these are ordinary `Option` results,
not faults. -/
theorem recoverable_empty_and_bounds {T : Type} (v : CustomVec T) (i : Nat) :
    (v.len = 0 → v.pop = (none, v)) ∧
      (i ≥ v.len → v.get i = none ∧ v.getMut i = none) ∧
      (i < v.len → v.get i = v.data[i]? ∧ v.getMut i = v.data[i]? ∧
        (v.get i).isSome = true) := by
  refine ⟨fun h0 => pop_of_len_zero v h0, fun hge => ⟨?_, ?_⟩, fun hlt => ⟨?_, ?_, ?_⟩⟩
  · unfold CustomVec.get; rw [if_pos hge]
  · unfold CustomVec.getMut; rw [if_pos hge]
  · unfold CustomVec.get; rw [if_neg (by omega)]
  · unfold CustomVec.getMut; rw [if_neg (by omega)]
  · unfold CustomVec.get
    rw [if_neg (by omega)]
    have hil : i < v.data.length := by rw [← len]; omega
    rw [List.getElem?_eq_getElem hil]
    rfl

/-- Witness for C6: empty pop on a pre-sized buffer, an out-of-range get,
and an in-range get. -/
theorem recoverable_empty_and_bounds_witness :
    (CustomVec.mk ([] : List Nat) 5).pop = (none, CustomVec.mk [] 5) ∧
      (CustomVec.mk [7] 1).get 3 = none ∧
      (CustomVec.mk [7] 1).get 0 = (CustomVec.mk [7] 1).data[0]? :=
  ⟨(recoverable_empty_and_bounds (CustomVec.mk ([] : List Nat) 5) 0).1 rfl,
    ((recoverable_empty_and_bounds (CustomVec.mk [7] 1) 3).2.1 (by decide)).1,
    ((recoverable_empty_and_bounds (CustomVec.mk [7] 1) 0).2.2 (by decide)).1⟩

/-- C7: destroying a buffer satisfying the `len <= capacity` invariant
drops exactly the elements of slots `[0, len)`, each once, in the fixed
order last-slot-first (the pop loop), and releases the backing allocation
exactly when `capacity > 0`; a never-grown buffer (`capacity == 0`)
performs no release. -/
theorem drop_each_once_release_once {T : Type} (v : CustomVec T)
    (hinv : v.len ≤ v.capacity) :
    (v.dropVec).1 = v.data.reverse ∧ ((v.dropVec).2 = true ↔ v.capacity ≠ 0) := by
  unfold dropVec
  by_cases hc : v.capacity = 0
  · rw [if_neg (by omega)]
    have hl : v.len = 0 := by omega
    have hd : v.data = [] := List.length_eq_zero.mp (by rw [← len]; omega)
    rw [hd]
    exact ⟨rfl, by simp [hc]⟩
  · rw [if_pos hc, popN_of_le v (v.len + 1) (by omega)]
    exact ⟨rfl, by simp [hc]⟩

/-- Witness for C7: dropping a buffer holding `[1, 2, 3]` with capacity 4
drops `3, 2, 1` and releases the allocation. -/
theorem drop_each_once_release_once_witness :
    ((CustomVec.mk [1, 2, 3] 4).dropVec).1 = [3, 2, 1] ∧
      ((CustomVec.mk [1, 2, 3] 4).dropVec).2 = true := by
  have h := drop_each_once_release_once (CustomVec.mk [1, 2, 3] 4) (by decide)
  exact ⟨by simpa using h.1, h.2.mpr (by decide)⟩

/-- C8: across any sequence of `N` pushes from `new()`, the total
element-relocation work done by growth steps is at most `2 * N`
(the geometric-series bound, hence amortized O(1) per push), and a single
growth step relocates at most `capacity` elements. -/
theorem amortized_push_cost {T : Type} (xs : List T) :
    (new T).pushAllCopyCost xs ≤ 2 * xs.length ∧
      ∀ v : CustomVec T, v.pushCopyCost ≤ v.capacity := by
  constructor
  · have hb := pushAllCopyCost_bound xs (new T)
    rw [len_new, capacity_new, pushAll_len, len_new] at hb
    have hbal := balanced_pushAll xs (new T) balanced_new
    rcases hbal with ⟨hd, hc⟩ | ⟨_, hlc, hcl⟩
    · have h0 : ((new T).pushAll xs).len = 0 := by rw [len, hd]; rfl
      rw [pushAll_len, len_new] at h0
      omega
    · rw [pushAll_len, len_new] at hcl
      omega
  · intro v
    unfold pushCopyCost
    split
    · exact le_refl _
    · omega

/-- C9: from any buffer state, pushing a value and then popping returns
exactly that value, and the remaining buffer has the same length and the
same `get` answer at every index as before the push (only the capacity
may have grown). -/
theorem push_pop_roundtrip {T : Type} (b : CustomVec T) (x : T) :
    ((b.push x).pop).1 = some x ∧ ((b.push x).pop).2.len = b.len ∧
      ∀ i, ((b.push x).pop).2.get i = b.get i := by
  have h := pop_concat (b.push x) b.data x (data_push b x)
  refine ⟨by rw [h], by rw [h]; rfl, fun i => by rw [h]; rfl⟩

/-- C10 counterexample: the first push onto a fresh buffer moves capacity
from 0 to 1, which is neither "unchanged" nor "doubled" — the claim's
characterization of push fails at the empty buffer. -/
theorem capacity_change_counterexample :
    ¬(((new Nat).push 0).capacity = (new Nat).capacity ∨
      ((new Nat).push 0).capacity = 2 * (new Nat).capacity) := by
  decide

/-- C10 (amended): capacity never decreases under any public operation:
`pop` and writes through `get_mut` leave it exactly unchanged (`get`,
`get_mut`, `len`, `capacity` are reads returning no new state), and
`push` leaves it unchanged, sets it to 1 from 0, or doubles it. -/
theorem capacity_monotone_amended {T : Type} (v : CustomVec T) (x : T) (i : Nat) :
    v.capacity ≤ (v.push x).capacity ∧
      (v.pop).2.capacity = v.capacity ∧
      (v.setThroughGetMut i x).capacity = v.capacity ∧
      ((v.push x).capacity = v.capacity ∨
        (v.capacity = 0 ∧ (v.push x).capacity = 1) ∨
        (v.push x).capacity = 2 * v.capacity) := by
  have hcap := capacity_push v x
  refine ⟨?_, capacity_pop v, ?_, ?_⟩
  · rw [hcap]
    by_cases hif : v.len = v.capacity
    · rw [if_pos hif]
      by_cases h0 : v.capacity = 0
      · rw [if_pos h0]; omega
      · rw [if_neg h0]; omega
    · rw [if_neg hif]
  · unfold setThroughGetMut
    split <;> rfl
  · rw [hcap]
    by_cases hif : v.len = v.capacity
    · rw [if_pos hif]
      by_cases h0 : v.capacity = 0
      · rw [if_pos h0]; right; left; exact ⟨h0, rfl⟩
      · rw [if_neg h0]; right; right; ring
    · rw [if_neg hif]; left; rfl

/-- C2: on allocation failure the source's `grow` and `with_capacity` do
NOT fail loudly: the allocator returns null, `NonNull::new_unchecked`
wraps it without a check, and the function returns normally with a
nonzero recorded `capacity` yet no valid storage — a mutually
inconsistent state (e.g. capacity 16, null pointer), contradicting the
stated fail-loudly policy.  (Only the size computation
`Layout::array(..).unwrap()` panics loudly.) -/
theorem grow_alloc_failure_continues :
    growRaw 4 (2 ^ 63 - 1) false (RawVec.mk false 8) =
      GrowOutcome.continued (RawVec.mk true 16) ∧
      withCapacityRaw 4 (2 ^ 63 - 1) false 8 = GrowOutcome.continued (RawVec.mk true 8) ∧
      ∃ s : RawVec, growRaw 4 (2 ^ 63 - 1) false (RawVec.mk false 8) =
        GrowOutcome.continued s ∧ s.capacity ≠ 0 ∧ s.ptrIsNull = true := by
  refine ⟨by decide, by decide, ⟨RawVec.mk true 16, by decide, by decide, rfl⟩⟩

/-- Witness for C9 at a concrete state: push 2 onto a full one-element
buffer, pop it back. -/
theorem push_pop_roundtrip_witness :
    (((CustomVec.mk [1] 1).push 2).pop).1 = some 2 ∧
      (((CustomVec.mk [1] 1).push 2).pop).2.len = (CustomVec.mk [1] 1).len :=
  ⟨(push_pop_roundtrip (CustomVec.mk [1] 1) 2).1,
    (push_pop_roundtrip (CustomVec.mk [1] 1) 2).2.1⟩

/-- Witness for C8: five pushes from `new` relocate at most 10 elements
in total. -/
theorem amortized_push_cost_witness :
    (new Nat).pushAllCopyCost [1, 2, 3, 4, 5] ≤ 2 * 5 :=
  (amortized_push_cost [1, 2, 3, 4, 5]).1

/-- Witness for the amended C10 at a concrete state. -/
theorem capacity_monotone_amended_witness :
    (CustomVec.mk [1] 2).capacity ≤ ((CustomVec.mk [1] 2).push 9).capacity ∧
      ((CustomVec.mk [1] 2).pop).2.capacity = (CustomVec.mk [1] 2).capacity :=
  ⟨(capacity_monotone_amended (CustomVec.mk [1] 2) 9 0).1,
    (capacity_monotone_amended (CustomVec.mk [1] 2) 9 0).2.1⟩
